import Mathlib

/-!
# Verification of the tt-res-analysis reconstruction core

A shallow embedding, in exact real arithmetic, of the combinatorial
jet-assignment and neutrino-reconstruction engine of the repository:

* `NuRecoRunI.cpp` — the quadratic (W-mass) neutrino solver;
* `TTSemilepRecoBase.cpp` — jet selection and the exhaustive search over
  jet-to-parton assignments;
* `TTSemilepRecoChi2.cpp` — the chi-squared rank strategy;
* `TTSemilepRecoRochester.cpp` — the likelihood rank strategy.

`double` values are modelled as real numbers; ROOT's `TLorentzVector` becomes
the structure `P4`; C++ `assert` failures and thrown exceptions become
`Except.error`; the non-owning jet pointers used by the engine become indices
into the per-event jet list (pointer identity = index identity).
-/

/-- A four-momentum, mirroring `TLorentzVector` (px, py, pz, E). -/
structure P4 where
  px : ℝ
  py : ℝ
  pz : ℝ
  E : ℝ

instance : Inhabited P4 := ⟨⟨0, 0, 0, 0⟩⟩

/-- Component-wise four-vector addition (`TLorentzVector::operator+`). -/
instance : Add P4 := ⟨fun p q => ⟨p.px + q.px, p.py + q.py, p.pz + q.pz, p.E + q.E⟩⟩

/-- The invariant mass squared, `TLorentzVector::M2`. -/
def P4.massSq (p : P4) : ℝ := p.E ^ 2 - (p.px ^ 2 + p.py ^ 2 + p.pz ^ 2)

/-- `TLorentzVector::M`: the square root of `M2`, with ROOT's sign convention
`M = -sqrt (-M2)` for space-like vectors. -/
noncomputable def P4.mass (p : P4) : ℝ :=
  if 0 ≤ p.massSq then Real.sqrt p.massSq else -Real.sqrt (-p.massSq)

/-- `TLorentzVector::Pt`: the transverse momentum. -/
noncomputable def P4.ptv (p : P4) : ℝ := Real.sqrt (p.px ^ 2 + p.py ^ 2)

theorem P4.mass_mul_self (p : P4) : p.mass * p.mass = |p.massSq| := by
  unfold P4.mass
  split
  · rw [abs_of_nonneg (by assumption), Real.mul_self_sqrt (by assumption)]
  · rw [neg_mul_neg, Real.mul_self_sqrt (by linarith [lt_of_not_le (by assumption : ¬ 0 ≤ p.massSq)]),
      abs_of_neg (lt_of_not_le (by assumption))]

theorem P4.ptv_mul_self (p : P4) : p.ptv * p.ptv = p.px ^ 2 + p.py ^ 2 :=
  Real.mul_self_sqrt (by positivity)

/-! ## The quadratic (W-mass) neutrino solver, `NuRecoRunI::ProcessEvent`

`NuRecoRunI.cpp` lines 45-162.  The W mass constant is `m_w = 80.419`
(line 50).  The coefficients of the quadratic `a pz^2 + b pz + c = 0` for the
neutrino longitudinal momentum are formed on lines 51-55. -/

/-- The W-boson mass hypothesis, `NuRecoRunI.cpp` line 50. -/
def mW : ℝ := 80.419

/-- `lambda`, `NuRecoRunI.cpp` lines 51-52. -/
noncomputable def lamCoef (lep met : P4) : ℝ :=
  (mW * mW - lep.mass * lep.mass + 2 * (met.px * lep.px + met.py * lep.py)) / (2 * lep.E)

/-- `a`, `NuRecoRunI.cpp` line 53. -/
noncomputable def aCoef (lep : P4) : ℝ := 1 - (lep.pz / lep.E) ^ 2

/-- `b`, `NuRecoRunI.cpp` line 54. -/
noncomputable def bCoef (lep met : P4) : ℝ := -2 * (lep.pz / lep.E) * lamCoef lep met

/-- `c`, `NuRecoRunI.cpp` line 55. -/
noncomputable def cCoef (lep met : P4) : ℝ := met.ptv * met.ptv - lamCoef lep met * lamCoef lep met

/-- The discriminant `b*b - 4*a*c`, `NuRecoRunI.cpp` line 68. -/
noncomputable def discCoef (lep met : P4) : ℝ :=
  bCoef lep met * bCoef lep met - 4 * aCoef lep * cCoef lep met

/-- `gamma_x`, `NuRecoRunI.cpp` lines 86 and 89-90: the sign flip for negative
`met.px` is applied after the division.  When `met.px = 0` the C++ division
produces an infinite intermediate value and the quotient evaluates to `0`;
since real division by zero is not infinite, that case is written out. -/
noncomputable def gammaX (lep met : P4) : ℝ :=
  if met.px = 0 then 0
  else if met.px < 0 then -(lep.px / Real.sqrt (1 + (met.py / met.px) ^ 2))
  else lep.px / Real.sqrt (1 + (met.py / met.px) ^ 2)

/-- `gamma_y`, `NuRecoRunI.cpp` lines 87 and 92-93, handled like `gammaX`. -/
noncomputable def gammaY (lep met : P4) : ℝ :=
  if met.py = 0 then 0
  else if met.py < 0 then -(lep.py / Real.sqrt (1 + (met.px / met.py) ^ 2))
  else lep.py / Real.sqrt (1 + (met.px / met.py) ^ 2)

/-- `u`, `NuRecoRunI.cpp` lines 99-100. -/
noncomputable def uCoef (lep met : P4) : ℝ :=
  (lep.pz / lep.E) ^ 2 + ((gammaX lep met + gammaY lep met) / lep.E) ^ 2 - 1

/-- `v`, `NuRecoRunI.cpp` lines 101-102. -/
noncomputable def vCoef (lep met : P4) : ℝ :=
  (1 / lep.E) ^ 2 * (gammaX lep met + gammaY lep met) * (mW ^ 2 - lep.mass ^ 2)

/-- `w`, `NuRecoRunI.cpp` lines 103-104. -/
noncomputable def wCoef (lep met : P4) : ℝ :=
  ((mW ^ 2 - lep.mass ^ 2) / (2 * lep.E)) ^ 2

/-- `discriminantMET = v*v - 4*u*w`, `NuRecoRunI.cpp` line 106. -/
noncomputable def discMET (lep met : P4) : ℝ :=
  vCoef lep met * vCoef lep met - 4 * uCoef lep met * wCoef lep met

/-- The auxiliary quadratic `u MET^2 + v MET + w` in the adjusted MET
magnitude, `NuRecoRunI.cpp` line 97. -/
noncomputable def auxQuad (lep met : P4) (M : ℝ) : ℝ :=
  uCoef lep met * M ^ 2 + vCoef lep met * M + wCoef lep met

/-- The recomputed `lambda` with the adjusted MET, `NuRecoRunI.cpp`
lines 155-156.  `SetPtEtaPhiM(adjMET, 0, met.Phi(), 0)` yields the transverse
vector `adjMET * (cos met.Phi(), sin met.Phi()) = adjMET * (met.px, met.py) / met.Pt()`. -/
noncomputable def lamAdj (lep met : P4) (adjMET : ℝ) : ℝ :=
  (mW * mW - lep.mass * lep.mass +
    2 * (adjMET * met.px / met.ptv * lep.px + adjMET * met.py / met.ptv * lep.py)) / (2 * lep.E)

/-- The recomputed `b` with the adjusted MET, `NuRecoRunI.cpp` line 158
(`aAdjusted` on line 157 coincides with `aCoef`). -/
noncomputable def bAdj (lep met : P4) (adjMET : ℝ) : ℝ :=
  -2 * (lep.pz / lep.E) * lamAdj lep met adjMET

/-- The `c` coefficient recomputed from the adjusted MET vector (its `Pt`
squared minus `lambdaAdjusted` squared), following line 55 applied to the
adjusted vector. -/
noncomputable def cAdj (lep met : P4) (adjMET : ℝ) : ℝ :=
  ((adjMET * met.px / met.ptv) ^ 2 + (adjMET * met.py / met.ptv) ^ 2) -
    lamAdj lep met adjMET * lamAdj lep met adjMET

/-- The discriminant of the pz quadratic recomputed with the adjusted MET. -/
noncomputable def discAdj (lep met : P4) (adjMET : ℝ) : ℝ :=
  bAdj lep met adjMET * bAdj lep met adjMET - 4 * aCoef lep * cAdj lep met adjMET

/-- The neutrino candidate emitted by the MET-adjustment branch,
`NuRecoRunI.cpp` lines 149-161: `SetPtEtaPhiM(adjMET, 0, met.Phi(), 0)`
followed by `SetPz(-bAdjusted / (2*aAdjusted))`; the resulting energy equals
the adjusted MET magnitude (massless, `eta = 0`). -/
noncomputable def emitAdjusted (lep met : P4) (adjMET : ℝ) : P4 :=
  ⟨adjMET * met.px / met.ptv, adjMET * met.py / met.ptv,
    -bAdj lep met adjMET / (2 * aCoef lep), adjMET⟩

/-- `met1`, `NuRecoRunI.cpp` line 125. -/
noncomputable def met1Val (lep met : P4) : ℝ :=
  (-vCoef lep met - Real.sqrt (discMET lep met)) / (2 * uCoef lep met)

/-- `met2`, `NuRecoRunI.cpp` line 126. -/
noncomputable def met2Val (lep met : P4) : ℝ :=
  (-vCoef lep met + Real.sqrt (discMET lep met)) / (2 * uCoef lep met)

/-- The MET-adjustment branch of `NuRecoRunI::ProcessEvent`
(`NuRecoRunI.cpp` lines 81-161), entered when the discriminant is not
positive.  The two C++ `assert`s become `Except.error`. -/
noncomputable def adjustBranch (lep met : P4) : Except Unit (List P4) :=
  if discMET lep met < 0 then Except.error ()
  else if uCoef lep met = 0 then
    if vCoef lep met = 0 then Except.error ()
    else if -wCoef lep met / vCoef lep met ≤ 0 then Except.ok []
    else Except.ok [emitAdjusted lep met (-wCoef lep met / vCoef lep met)]
  else
    if met1Val lep met > 0 ∧ met2Val lep met > 0 then
      Except.ok [emitAdjusted lep met
        (if |met.ptv - met1Val lep met| < |met.ptv - met2Val lep met| then met1Val lep met
         else met2Val lep met)]
    else if met1Val lep met > 0 then Except.ok [emitAdjusted lep met (met1Val lep met)]
    else if met2Val lep met > 0 then Except.ok [emitAdjusted lep met (met2Val lep met)]
    else Except.ok []

/-- `NuRecoRunI::ProcessEvent`, `NuRecoRunI.cpp` lines 45-162: the list of
reconstructed neutrino candidates for the given lepton and MET four-momenta
(the MET `P4` supplies `px`, `py` and the energy copied into candidates). -/
noncomputable def nuRecoRunI (lep met : P4) : Except Unit (List P4) :=
  if aCoef lep = 0 then
    if bCoef lep met = 0 then Except.error ()
    else Except.ok [{ met with pz := -cCoef lep met / bCoef lep met }]
  else if discCoef lep met > 0 then
    Except.ok
      [{ met with pz := (-bCoef lep met - Real.sqrt (discCoef lep met)) / (2 * aCoef lep) },
       { met with pz := (-bCoef lep met + Real.sqrt (discCoef lep met)) / (2 * aCoef lep) }]
  else adjustBranch lep met

/-! ## Claim C5: the positive-discriminant branch -/

/-- **C5.** For every lepton/MET input whose neutrino-pz quadratic has a
strictly positive discriminant (with `a ≠ 0`), the solver emits exactly two
neutrino candidates, with `pz = (-b - sqrt disc)/(2a)` and
`pz = (-b + sqrt disc)/(2a)`, both carrying the transverse momentum of the
measured MET (`NuRecoRunI.cpp` lines 70-80). -/
theorem nuRecoRunI_two_solutions (lep met : P4)
    (ha : aCoef lep ≠ 0) (hd : 0 < discCoef lep met) :
    nuRecoRunI lep met = Except.ok
      [⟨met.px, met.py, (-bCoef lep met - Real.sqrt (discCoef lep met)) / (2 * aCoef lep), met.E⟩,
       ⟨met.px, met.py, (-bCoef lep met + Real.sqrt (discCoef lep met)) / (2 * aCoef lep), met.E⟩] := by
  unfold nuRecoRunI
  rw [if_neg ha, if_pos hd]

/-- Witness for C5 at a concrete input: a massless lepton `(px,py,pz,E) =
(1,0,0,1)` and MET `(1,0,0,1)` give `a = 1` and a positive discriminant. -/
theorem nuRecoRunI_two_solutions_witness :
    aCoef ⟨1, 0, 0, 1⟩ ≠ 0 ∧ 0 < discCoef ⟨1, 0, 0, 1⟩ ⟨1, 0, 0, 1⟩ ∧
      nuRecoRunI ⟨1, 0, 0, 1⟩ ⟨1, 0, 0, 1⟩ = Except.ok
        [⟨(1:ℝ), 0,
          (-bCoef ⟨1, 0, 0, 1⟩ ⟨1, 0, 0, 1⟩ -
            Real.sqrt (discCoef ⟨1, 0, 0, 1⟩ ⟨1, 0, 0, 1⟩)) / (2 * aCoef ⟨1, 0, 0, 1⟩), 1⟩,
         ⟨(1:ℝ), 0,
          (-bCoef ⟨1, 0, 0, 1⟩ ⟨1, 0, 0, 1⟩ +
            Real.sqrt (discCoef ⟨1, 0, 0, 1⟩ ⟨1, 0, 0, 1⟩)) / (2 * aCoef ⟨1, 0, 0, 1⟩), 1⟩] := by
  have ha : aCoef ⟨1, 0, 0, 1⟩ ≠ 0 := by norm_num [aCoef]
  have hd : 0 < discCoef ⟨1, 0, 0, 1⟩ ⟨1, 0, 0, 1⟩ := by
    norm_num [discCoef, bCoef, cCoef, aCoef, lamCoef, mW, P4.mass, P4.massSq, P4.ptv,
      Real.sqrt_zero, Real.sqrt_one]
  exact ⟨ha, hd, nuRecoRunI_two_solutions _ _ ha hd⟩

/-! ## Claim C10: the zero-discriminant edge case -/

/-- **C10.** When `a ≠ 0` and the discriminant is exactly zero, the solver
takes the MET-adjustment branch (`NuRecoRunI.cpp` line 70 tests `> 0.`), and
that branch emits at most one neutrino candidate — never two coincident
ones. -/
theorem nuRecoRunI_zero_disc (lep met : P4)
    (ha : aCoef lep ≠ 0) (hd : discCoef lep met = 0) :
    nuRecoRunI lep met = adjustBranch lep met ∧
      ∀ l, adjustBranch lep met = Except.ok l → l.length ≤ 1 := by
  constructor
  · unfold nuRecoRunI
    rw [if_neg ha, if_neg (by simp [hd])]
  · intro l hl
    unfold adjustBranch at hl
    split_ifs at hl <;> try simp_all
    all_goals (subst hl; simp)

/-- Witness for C10 at a concrete input: with the massless lepton
`(1,0,0,1)` and `met.px = -(80.419)^2 / 4`, `lambda = -met.px` exactly, so
`c = 0`, `b = 0` and the discriminant is exactly zero. -/
theorem nuRecoRunI_zero_disc_witness :
    aCoef ⟨1, 0, 0, 1⟩ ≠ 0 ∧
      discCoef ⟨1, 0, 0, 1⟩ ⟨-1616.80389025, 0, 0, 1616.80389025⟩ = 0 ∧
      (nuRecoRunI ⟨1, 0, 0, 1⟩ ⟨-1616.80389025, 0, 0, 1616.80389025⟩ =
          adjustBranch ⟨1, 0, 0, 1⟩ ⟨-1616.80389025, 0, 0, 1616.80389025⟩ ∧
        ∀ l, adjustBranch ⟨1, 0, 0, 1⟩ ⟨-1616.80389025, 0, 0, 1616.80389025⟩ =
          Except.ok l → l.length ≤ 1) := by
  have ha : aCoef ⟨1, 0, 0, 1⟩ ≠ 0 := by norm_num [aCoef]
  have hd : discCoef ⟨1, 0, 0, 1⟩ ⟨-1616.80389025, 0, 0, 1616.80389025⟩ = 0 := by
    norm_num [discCoef, bCoef, cCoef, lamCoef, aCoef, mW, P4.mass_mul_self, P4.ptv_mul_self,
      P4.massSq]
  exact ⟨ha, hd, nuRecoRunI_zero_disc _ _ ha hd⟩

/-! ## Claim C4: the negative-discriminant branch — supporting identities -/

theorem gammaX_eq (lep met : P4) : gammaX lep met = lep.px * met.px / met.ptv := by
  unfold gammaX
  by_cases h0 : met.px = 0
  · simp [h0]
  · have hpt : (0:ℝ) < met.px ^ 2 + met.py ^ 2 := by positivity
    have key : Real.sqrt (1 + (met.py / met.px) ^ 2) = met.ptv / |met.px| := by
      rw [show (1 + (met.py / met.px) ^ 2) = (met.px ^ 2 + met.py ^ 2) / met.px ^ 2 by
            field_simp,
          Real.sqrt_div (le_of_lt hpt), Real.sqrt_sq_eq_abs, P4.ptv]
    rw [if_neg h0]
    rcases lt_or_gt_of_ne h0 with hneg | hpos
    · rw [if_pos hneg, key, div_div_eq_mul_div, abs_of_neg hneg]
      ring
    · rw [if_neg (not_lt.mpr (le_of_lt hpos)), key, div_div_eq_mul_div, abs_of_pos hpos]

theorem gammaY_eq (lep met : P4) : gammaY lep met = lep.py * met.py / met.ptv := by
  unfold gammaY
  by_cases h0 : met.py = 0
  · simp [h0]
  · have hpt : (0:ℝ) < met.px ^ 2 + met.py ^ 2 := by positivity
    have key : Real.sqrt (1 + (met.px / met.py) ^ 2) = met.ptv / |met.py| := by
      rw [show (1 + (met.px / met.py) ^ 2) = (met.px ^ 2 + met.py ^ 2) / met.py ^ 2 by
            field_simp; ring,
          Real.sqrt_div (le_of_lt hpt), Real.sqrt_sq_eq_abs, P4.ptv]
    rw [if_neg h0]
    rcases lt_or_gt_of_ne h0 with hneg | hpos
    · rw [if_pos hneg, key, div_div_eq_mul_div, abs_of_neg hneg]
      ring
    · rw [if_neg (not_lt.mpr (le_of_lt hpos)), key, div_div_eq_mul_div, abs_of_pos hpos]

theorem gammaSum_eq (lep met : P4) :
    gammaX lep met + gammaY lep met = (lep.px * met.px + lep.py * met.py) / met.ptv := by
  rw [gammaX_eq, gammaY_eq, div_add_div_same]

/-- The discriminant of the pz quadratic in closed form. -/
theorem discCoef_eq (lep met : P4) :
    discCoef lep met =
      4 * (lamCoef lep met ^ 2 - aCoef lep * (met.px ^ 2 + met.py ^ 2)) := by
  unfold discCoef bCoef cCoef aCoef
  rw [P4.ptv_mul_self]
  ring

/-- The discriminant of the auxiliary MET quadratic in closed form: it always
equals `a * (mW^2 - m_l^2)^2 / E^2`. -/
theorem discMET_eq (lep met : P4) :
    discMET lep met = aCoef lep * ((mW ^ 2 - lep.mass ^ 2) ^ 2 / lep.E ^ 2) := by
  by_cases hE : lep.E = 0
  · unfold discMET vCoef uCoef wCoef aCoef
    rw [hE]
    simp
  · unfold discMET vCoef uCoef wCoef aCoef
    field_simp
    ring

theorem discMET_nonneg (lep met : P4) (ha : 0 < aCoef lep) : 0 ≤ discMET lep met := by
  rw [discMET_eq]
  positivity

/-- A negative pz discriminant forces `a > 0` and a nonzero transverse MET. -/
theorem neg_disc_facts (lep met : P4) (hd : discCoef lep met < 0) :
    0 < aCoef lep ∧ 0 < met.px ^ 2 + met.py ^ 2 := by
  have h := discCoef_eq lep met
  rw [h] at hd
  have hl : 0 ≤ lamCoef lep met ^ 2 := sq_nonneg _
  have hPt : 0 ≤ met.px ^ 2 + met.py ^ 2 := by positivity
  have key : 0 < aCoef lep * (met.px ^ 2 + met.py ^ 2) := by nlinarith
  rcases mul_pos_iff.mp key with ⟨h1, h2⟩ | ⟨_, h2⟩
  · exact ⟨h1, h2⟩
  · linarith

/-- Key identity: with a rescaled MET of magnitude `M` (same transverse
direction), the recomputed pz discriminant equals four times the auxiliary
quadratic evaluated at `M`.  In particular the discriminant vanishes exactly
at the roots of the auxiliary quadratic. -/
theorem discAdj_eq (lep met : P4) (hPt : met.px ^ 2 + met.py ^ 2 ≠ 0) (M : ℝ) :
    discAdj lep met M = 4 * auxQuad lep met M := by
  have hPt' : (0:ℝ) < met.px ^ 2 + met.py ^ 2 :=
    lt_of_le_of_ne (by positivity) (Ne.symm hPt)
  have hptv : met.ptv ≠ 0 := by
    rw [P4.ptv]
    exact ne_of_gt (Real.sqrt_pos.mpr hPt')
  have hpt2 : met.ptv ^ 2 = met.px ^ 2 + met.py ^ 2 := Real.sq_sqrt (by positivity)
  have hP2 : (M * met.px / met.ptv) ^ 2 + (M * met.py / met.ptv) ^ 2 = M ^ 2 := by
    rw [div_pow, div_pow, div_add_div_same, hpt2,
      show (M * met.px) ^ 2 + (M * met.py) ^ 2 = M ^ 2 * (met.px ^ 2 + met.py ^ 2) from by ring,
      mul_div_assoc, div_self hPt, mul_one]
  unfold discAdj bAdj cAdj lamAdj auxQuad uCoef vCoef wCoef aCoef
  rw [gammaSum_eq, hP2,
    show M * met.px / met.ptv * lep.px + M * met.py / met.ptv * lep.py =
      M * ((lep.px * met.px + lep.py * met.py) / met.ptv) from by ring]
  by_cases hE : lep.E = 0
  · rw [hE]
    simp
  · field_simp
    ring

/-- The two explicit solutions of the auxiliary quadratic computed on
`NuRecoRunI.cpp` lines 125-126 are exactly its roots. -/
theorem auxQuad_roots (lep met : P4) (hu : uCoef lep met ≠ 0)
    (h0 : 0 ≤ discMET lep met) (x : ℝ) :
    auxQuad lep met x = 0 ↔ x = met2Val lep met ∨ x = met1Val lep met := by
  unfold met1Val met2Val
  have hs : discrim (uCoef lep met) (vCoef lep met) (wCoef lep met) =
      Real.sqrt (discMET lep met) * Real.sqrt (discMET lep met) := by
    rw [Real.mul_self_sqrt h0, discrim, discMET]
    ring
  have h := quadratic_eq_zero_iff hu hs x
  unfold auxQuad
  rw [show uCoef lep met * x ^ 2 + vCoef lep met * x + wCoef lep met =
      uCoef lep met * (x * x) + vCoef lep met * x + wCoef lep met from by ring]
  exact h

/-- In the linear case `u = 0` (with `v ≠ 0`) the auxiliary equation has the
single root `-w / v`, the value computed on `NuRecoRunI.cpp` line 115. -/
theorem auxQuad_linear_root (lep met : P4) (hu : uCoef lep met = 0)
    (hv : vCoef lep met ≠ 0) (x : ℝ) :
    auxQuad lep met x = 0 ↔ x = -wCoef lep met / vCoef lep met := by
  unfold auxQuad
  rw [hu, zero_mul, zero_add]
  constructor
  · intro h
    rw [eq_div_iff hv]
    linear_combination h
  · intro h
    rw [h]
    field_simp
    ring

/-- With a negative pz discriminant, the linear case `u = 0` of the auxiliary
quadratic forces `v ≠ 0`: the C++ `assert(v != 0.)` on `NuRecoRunI.cpp`
line 114 cannot fire. -/
theorem vCoef_ne_zero_of_u_eq_zero (lep met : P4) (hd : discCoef lep met < 0)
    (hu : uCoef lep met = 0) : vCoef lep met ≠ 0 := by
  obtain ⟨hapos, hPtpos⟩ := neg_disc_facts lep met hd
  have hPt : met.px ^ 2 + met.py ^ 2 ≠ 0 := ne_of_gt hPtpos
  have hpt2 : met.ptv ^ 2 = met.px ^ 2 + met.py ^ 2 := Real.sq_sqrt (by positivity)
  have hE : lep.E ≠ 0 := by
    intro hE0
    unfold uCoef at hu
    rw [hE0] at hu
    simp at hu
  have hGE : ((gammaX lep met + gammaY lep met) / lep.E) ^ 2 = aCoef lep := by
    unfold uCoef at hu
    unfold aCoef
    linarith
  have hG : gammaX lep met + gammaY lep met ≠ 0 := by
    intro h0
    rw [h0, zero_div] at hGE
    simp at hGE
    linarith
  have hK : mW ^ 2 - lep.mass ^ 2 ≠ 0 := by
    intro hK0
    have hlam : lamCoef lep met = (lep.px * met.px + lep.py * met.py) / lep.E := by
      unfold lamCoef
      rw [show mW * mW - lep.mass * lep.mass = mW ^ 2 - lep.mass ^ 2 from by ring, hK0,
        zero_add]
      field_simp
      ring
    have hlam2 : lamCoef lep met ^ 2 = aCoef lep * (met.px ^ 2 + met.py ^ 2) := by
      rw [hlam, ← hGE, gammaSum_eq]
      rw [div_pow, div_pow, div_pow, hpt2]
      field_simp
      ring
    have hzero := discCoef_eq lep met
    rw [hlam2, sub_self, mul_zero] at hzero
    linarith
  unfold vCoef
  exact mul_ne_zero (mul_ne_zero (pow_ne_zero 2 (one_div_ne_zero hE)) hG) hK

/-- **C4.** For every lepton/MET input whose neutrino-pz quadratic has a
negative discriminant (`a ≠ 0`): the solver rescales the MET magnitude
keeping its transverse direction unchanged; when the auxiliary quadratic
`u MET^2 + v MET + w = 0` has a positive root it emits exactly one candidate,
built from a positive root closest (among positive roots) to the measured MET
magnitude, whose `pz = -b'/(2a')` is computed from the adjusted MET and whose
recomputed discriminant `b'^2 - 4 a' c'` is exactly zero; when the auxiliary
quadratic has no positive root the solver returns the empty candidate list
(`NuRecoRunI.cpp` lines 81-161). -/
theorem nuRecoRunI_negative_disc (lep met : P4)
    (ha : aCoef lep ≠ 0) (hd : discCoef lep met < 0) :
    ∃ l, nuRecoRunI lep met = Except.ok l ∧
      (((∀ M : ℝ, 0 < M → auxQuad lep met M ≠ 0) ∧ l = []) ∨
        (∃ M : ℝ, 0 < M ∧ auxQuad lep met M = 0 ∧
          l = [emitAdjusted lep met M] ∧
          (∀ N : ℝ, auxQuad lep met N = 0 → 0 < N → |met.ptv - M| ≤ |met.ptv - N|) ∧
          (∃ s : ℝ, 0 < s ∧ (emitAdjusted lep met M).px = s * met.px ∧
            (emitAdjusted lep met M).py = s * met.py) ∧
          discAdj lep met M = 0 ∧
          (emitAdjusted lep met M).pz = -bAdj lep met M / (2 * aCoef lep))) := by
  obtain ⟨hapos, hPtpos⟩ := neg_disc_facts lep met hd
  have hPt : met.px ^ 2 + met.py ^ 2 ≠ 0 := ne_of_gt hPtpos
  have hptvpos : 0 < met.ptv := by
    unfold P4.ptv
    exact Real.sqrt_pos.mpr hPtpos
  have hDnn : 0 ≤ discMET lep met := discMET_nonneg lep met hapos
  have hroute : nuRecoRunI lep met = adjustBranch lep met := by
    unfold nuRecoRunI
    rw [if_neg ha, if_neg (by push_neg; linarith : ¬ discCoef lep met > 0)]
  have emitProps : ∀ M : ℝ, 0 < M → auxQuad lep met M = 0 →
      ((∃ s : ℝ, 0 < s ∧ (emitAdjusted lep met M).px = s * met.px ∧
        (emitAdjusted lep met M).py = s * met.py) ∧
        discAdj lep met M = 0 ∧
        (emitAdjusted lep met M).pz = -bAdj lep met M / (2 * aCoef lep)) := by
    intro M hM hq
    refine ⟨⟨M / met.ptv, div_pos hM hptvpos, ?_, ?_⟩, ?_, rfl⟩
    · show M * met.px / met.ptv = M / met.ptv * met.px
      ring
    · show M * met.py / met.ptv = M / met.ptv * met.py
      ring
    · rw [discAdj_eq lep met hPt, hq, mul_zero]
  by_cases hu : uCoef lep met = 0
  · have hv : vCoef lep met ≠ 0 := vCoef_ne_zero_of_u_eq_zero lep met hd hu
    have hAB : adjustBranch lep met =
        (if -wCoef lep met / vCoef lep met ≤ 0 then Except.ok []
         else Except.ok [emitAdjusted lep met (-wCoef lep met / vCoef lep met)]) := by
      unfold adjustBranch
      rw [if_neg (not_lt.mpr hDnn), if_pos hu, if_neg hv]
    by_cases hr : -wCoef lep met / vCoef lep met ≤ 0
    · refine ⟨[], ?_, Or.inl ⟨?_, rfl⟩⟩
      · rw [hroute, hAB, if_pos hr]
      · intro M hM hq
        rw [auxQuad_linear_root lep met hu hv] at hq
        exact absurd (hq ▸ hM) (not_lt.mpr hr)
    · push_neg at hr
      obtain ⟨hsc, hdz, hpz⟩ :=
        emitProps _ hr ((auxQuad_linear_root lep met hu hv _).mpr rfl)
      refine ⟨[emitAdjusted lep met (-wCoef lep met / vCoef lep met)], ?_, Or.inr
        ⟨-wCoef lep met / vCoef lep met, hr,
          (auxQuad_linear_root lep met hu hv _).mpr rfl, rfl, ?_, hsc, hdz, hpz⟩⟩
      · rw [hroute, hAB, if_neg (not_le.mpr hr)]
      · intro N hN _
        rw [auxQuad_linear_root lep met hu hv] at hN
        rw [hN]
  · have hchar := auxQuad_roots lep met hu hDnn
    have hm1 : auxQuad lep met (met1Val lep met) = 0 := (hchar _).mpr (Or.inr rfl)
    have hm2 : auxQuad lep met (met2Val lep met) = 0 := (hchar _).mpr (Or.inl rfl)
    have hAB0 : nuRecoRunI lep met =
        (if met1Val lep met > 0 ∧ met2Val lep met > 0 then
          Except.ok [emitAdjusted lep met
            (if |met.ptv - met1Val lep met| < |met.ptv - met2Val lep met| then met1Val lep met
             else met2Val lep met)]
        else if met1Val lep met > 0 then
          Except.ok [emitAdjusted lep met (met1Val lep met)]
        else if met2Val lep met > 0 then
          Except.ok [emitAdjusted lep met (met2Val lep met)]
        else Except.ok []) := by
      rw [hroute]
      unfold adjustBranch
      rw [if_neg (not_lt.mpr hDnn), if_neg hu]
    by_cases hboth : met1Val lep met > 0 ∧ met2Val lep met > 0
    · obtain ⟨h1, h2⟩ := hboth
      by_cases hcl : |met.ptv - met1Val lep met| < |met.ptv - met2Val lep met|
      · obtain ⟨hsc, hdz, hpz⟩ := emitProps _ h1 hm1
        refine ⟨[emitAdjusted lep met (met1Val lep met)], ?_, Or.inr
          ⟨met1Val lep met, h1, hm1, rfl, ?_, hsc, hdz, hpz⟩⟩
        · rw [hAB0, if_pos ⟨h1, h2⟩, if_pos hcl]
        · intro N hN _
          rcases (hchar N).mp hN with h | h <;> rw [h]
          · exact le_of_lt hcl
      · obtain ⟨hsc, hdz, hpz⟩ := emitProps _ h2 hm2
        refine ⟨[emitAdjusted lep met (met2Val lep met)], ?_, Or.inr
          ⟨met2Val lep met, h2, hm2, rfl, ?_, hsc, hdz, hpz⟩⟩
        · rw [hAB0, if_pos ⟨h1, h2⟩, if_neg hcl]
        · intro N hN _
          rcases (hchar N).mp hN with h | h <;> rw [h]
          exact not_lt.mp hcl
    · by_cases h1 : met1Val lep met > 0
      · have h2 : ¬ met2Val lep met > 0 := fun h2 => hboth ⟨h1, h2⟩
        obtain ⟨hsc, hdz, hpz⟩ := emitProps _ h1 hm1
        refine ⟨[emitAdjusted lep met (met1Val lep met)], ?_, Or.inr
          ⟨met1Val lep met, h1, hm1, rfl, ?_, hsc, hdz, hpz⟩⟩
        · rw [hAB0, if_neg hboth, if_pos h1]
        · intro N hN hNpos
          rcases (hchar N).mp hN with h | h
          · exact absurd (h ▸ hNpos) h2
          · rw [h]
      · by_cases h2 : met2Val lep met > 0
        · obtain ⟨hsc, hdz, hpz⟩ := emitProps _ h2 hm2
          refine ⟨[emitAdjusted lep met (met2Val lep met)], ?_, Or.inr
            ⟨met2Val lep met, h2, hm2, rfl, ?_, hsc, hdz, hpz⟩⟩
          · rw [hAB0, if_neg hboth, if_neg h1, if_pos h2]
          · intro N hN hNpos
            rcases (hchar N).mp hN with h | h
            · rw [h]
            · exact absurd (h ▸ hNpos) h1
        · refine ⟨[], ?_, Or.inl ⟨?_, rfl⟩⟩
          · rw [hAB0, if_neg hboth, if_neg h1, if_neg h2]
          · intro M hM hq
            rcases (hchar M).mp hq with h | h
            · exact h2 (h ▸ hM)
            · exact h1 (h ▸ hM)

/-- Witness for C4 at a concrete input: the massless lepton `(1,0,0,1)` with
`met.px = -1617.5` gives `a = 1`, `b = 0` and `lambda = 1616.1077805`, so
`c > 0` and the discriminant is negative. -/
theorem nuRecoRunI_negative_disc_witness :
    aCoef ⟨1, 0, 0, 1⟩ ≠ 0 ∧ discCoef ⟨1, 0, 0, 1⟩ ⟨-1617.5, 0, 0, 1617.5⟩ < 0 ∧
      (∃ l, nuRecoRunI ⟨1, 0, 0, 1⟩ ⟨-1617.5, 0, 0, 1617.5⟩ = Except.ok l ∧
        (((∀ M : ℝ, 0 < M → auxQuad ⟨1, 0, 0, 1⟩ ⟨-1617.5, 0, 0, 1617.5⟩ M ≠ 0) ∧ l = []) ∨
          (∃ M : ℝ, 0 < M ∧ auxQuad ⟨1, 0, 0, 1⟩ ⟨-1617.5, 0, 0, 1617.5⟩ M = 0 ∧
            l = [emitAdjusted ⟨1, 0, 0, 1⟩ ⟨-1617.5, 0, 0, 1617.5⟩ M] ∧
            (∀ N : ℝ, auxQuad ⟨1, 0, 0, 1⟩ ⟨-1617.5, 0, 0, 1617.5⟩ N = 0 → 0 < N →
              |P4.ptv ⟨-1617.5, 0, 0, 1617.5⟩ - M| ≤ |P4.ptv ⟨-1617.5, 0, 0, 1617.5⟩ - N|) ∧
            (∃ s : ℝ, 0 < s ∧
              (emitAdjusted ⟨1, 0, 0, 1⟩ ⟨-1617.5, 0, 0, 1617.5⟩ M).px = s * (-1617.5) ∧
              (emitAdjusted ⟨1, 0, 0, 1⟩ ⟨-1617.5, 0, 0, 1617.5⟩ M).py = s * 0) ∧
            discAdj ⟨1, 0, 0, 1⟩ ⟨-1617.5, 0, 0, 1617.5⟩ M = 0 ∧
            (emitAdjusted ⟨1, 0, 0, 1⟩ ⟨-1617.5, 0, 0, 1617.5⟩ M).pz =
              -bAdj ⟨1, 0, 0, 1⟩ ⟨-1617.5, 0, 0, 1617.5⟩ M /
                (2 * aCoef ⟨1, 0, 0, 1⟩)))) := by
  have ha : aCoef ⟨1, 0, 0, 1⟩ ≠ 0 := by norm_num [aCoef]
  have hd : discCoef ⟨1, 0, 0, 1⟩ ⟨-1617.5, 0, 0, 1617.5⟩ < 0 := by
    norm_num [discCoef, bCoef, cCoef, lamCoef, aCoef, mW, P4.mass_mul_self, P4.ptv_mul_self,
      P4.massSq]
  exact ⟨ha, hd, nuRecoRunI_negative_disc _ _ ha hd⟩

/-! ## The Jet-Assignment Engine, `TTSemilepRecoBase::PerformJetAssignment`

`TTSemilepRecoBase.cpp` lines 100-170. -/

/-- A reconstructed jet: the transverse momentum, pseudorapidity and
four-momentum accessors used by the engine and the rank strategies. -/
structure Jet where
  pt : ℝ
  eta : ℝ
  p4 : P4

instance : Inhabited Jet := ⟨⟨0, 0, default⟩⟩

/-- The jet-selection scan of `TTSemilepRecoBase.cpp` lines 110-119, carried
out from position `i`: a jet failing the eta cut is skipped (`continue`),
while the first eta-passing jet failing the pt cut stops the whole scan
(`break`, relying on the pt ordering of the input). -/
noncomputable def selGoIdx (minPt maxAbsEta : ℝ) : ℕ → List Jet → List ℕ
  | _, [] => []
  | i, j :: rest =>
    if |j.eta| > maxAbsEta then selGoIdx minPt maxAbsEta (i + 1) rest
    else if j.pt < minPt then []
    else i :: selGoIdx minPt maxAbsEta (i + 1) rest

/-- `selectedJetIndices` after the scan, `TTSemilepRecoBase.cpp`
lines 108-119. -/
noncomputable def selectJets (jets : List Jet) (minPt maxAbsEta : ℝ) : List ℕ :=
  selGoIdx minPt maxAbsEta 0 jets

/-- From the spec: the termination point of the selection scan — the position
of the first jet that passes the eta cut but fails the pt cut, or the length
of the collection when no such jet exists. -/
noncomputable def specStop (jets : List Jet) (minPt maxAbsEta : ℝ) : ℕ :=
  jets.findIdx fun j => decide (|j.eta| ≤ maxAbsEta ∧ j.pt < minPt)

/-- From the spec: a jet is selected iff it passes both cuts and precedes the
termination point; selected indices appear in input order. -/
noncomputable def specSelect (jets : List Jet) (minPt maxAbsEta : ℝ) : List ℕ :=
  (List.range (specStop jets minPt maxAbsEta)).filter
    fun i => decide (|(jets.getD i default).eta| ≤ maxAbsEta ∧
      minPt ≤ (jets.getD i default).pt)

theorem selGoIdx_eq (minPt maxAbsEta : ℝ) (jets : List Jet) :
    ∀ k, selGoIdx minPt maxAbsEta k jets =
      (specSelect jets minPt maxAbsEta).map (k + ·) := by
  induction jets with
  | nil =>
    intro k
    simp [selGoIdx, specSelect, specStop]
  | cons j rest ih =>
    intro k
    by_cases hEta : |j.eta| > maxAbsEta
    · have hp : (decide (|j.eta| ≤ maxAbsEta ∧ j.pt < minPt)) = false := by
        simp only [decide_eq_false_iff_not]
        rintro ⟨h1, _⟩
        exact absurd h1 (not_le.mpr hEta)
      simp only [selGoIdx, if_pos hEta]
      rw [ih (k + 1)]
      unfold specSelect specStop
      rw [List.findIdx_cons, hp]
      simp only [cond_false, List.range_succ_eq_map, List.filter_cons,
        List.getD_cons_zero, List.getD_cons_succ]
      rw [if_neg (by simp; intro h; exact absurd h (not_le.mpr hEta))]
      rw [List.filter_map]
      simp only [Function.comp, List.getD_cons_succ, List.map_map]
      congr 1
      funext i
      simp only [Function.comp]
      omega
    · push_neg at hEta
      by_cases hPtc : j.pt < minPt
      · have hp : (decide (|j.eta| ≤ maxAbsEta ∧ j.pt < minPt)) = true := by
          simp [hEta, hPtc]
        simp only [selGoIdx, if_neg (not_lt.mpr hEta), if_pos hPtc]
        unfold specSelect specStop
        rw [List.findIdx_cons, hp]
        simp
      · have hp : (decide (|j.eta| ≤ maxAbsEta ∧ j.pt < minPt)) = false := by
          simp [hPtc]
        simp only [selGoIdx, if_neg (not_lt.mpr hEta), if_neg hPtc]
        rw [ih (k + 1)]
        unfold specSelect specStop
        rw [List.findIdx_cons, hp]
        simp only [cond_false, List.range_succ_eq_map, List.filter_cons,
          List.getD_cons_zero, List.getD_cons_succ]
        rw [if_pos (by simp [hEta, not_lt.mp hPtc])]
        rw [List.filter_map]
        simp only [Function.comp, List.getD_cons_succ, List.map_map, List.map_cons]
        rw [Nat.add_zero]
        congr 1
        congr 1
        funext i
        simp only [Function.comp]
        omega

/-- **C7.** For every input jet sequence (pt-ordered or not), the selected
indices are exactly the jets scanned in input order, skipping (without
stopping) every jet with `|eta| > maxAbsEta` and terminating the scan at the
first jet that passes the eta cut but has `pt < minPt`; a jet is selected iff
it passes both cuts and precedes that termination point
(`TTSemilepRecoBase.cpp` lines 110-119). -/
theorem selectJets_characterization (jets : List Jet) (minPt maxAbsEta : ℝ) :
    selectJets jets minPt maxAbsEta = specSelect jets minPt maxAbsEta := by
  unfold selectJets
  rw [selGoIdx_eq]
  simp

/-- The nested assignment loops of `TTSemilepRecoBase.cpp` lines 133-166, as
the list of position 4-tuples `(iiBTopLep, iiBTopHad, iiQ1, iiQ2)` in
enumeration order: `iiBTopHad` skips the value of `iiBTopLep`; `iiQ1` skips
both b positions; `iiQ2` runs from `iiQ1 + 1` to the end (with no further
exclusion, exactly as in the source). -/
def tupleList (n : ℕ) : List (ℕ × ℕ × ℕ × ℕ) :=
  (List.range n).flatMap fun iL =>
    (List.range n).flatMap fun iH =>
      if iL = iH then []
      else
        (List.range n).flatMap fun i1 =>
          if i1 = iL ∨ i1 = iH then []
          else (List.range' (i1 + 1) (n - (i1 + 1))).map fun i2 => (iL, iH, i1, i2)

/-- The engine's per-event search accumulator: the rank of the best
interpretation so far (`highestRank`, reset to `-infinity`), the four jet
indices of the best interpretation (`bTopLep` … `q2TopHad`, reset to null),
and the number of `ComputeRank` invocations performed. -/
structure EngineAcc where
  highestRank : EReal
  best : Option (ℕ × ℕ × ℕ × ℕ)
  calls : ℕ

/-- One iteration of the innermost loop body, `TTSemilepRecoBase.cpp`
lines 149-163: evaluate the rank of the interpretation and keep it if it
strictly beats the best so far.  The rank function receives the strategy
state and the current best rank (Rochester's `ComputeRank` reads
`GetRank()`), and returns the updated strategy state. -/
noncomputable def engineStep {σ : Type}
    (rank : σ → EReal → ℕ × ℕ × ℕ × ℕ → EReal × σ) :
    EngineAcc × σ → ℕ × ℕ × ℕ × ℕ → EngineAcc × σ :=
  fun p t =>
    let r := rank p.2 p.1.highestRank t
    if r.1 > p.1.highestRank then
      (⟨r.1, some t, p.1.calls + 1⟩, r.2)
    else
      (⟨p.1.highestRank, p.1.best, p.1.calls + 1⟩, r.2)

/-- `TTSemilepRecoBase::PerformJetAssignment`, `TTSemilepRecoBase.cpp`
lines 100-170: reset the best interpretation, select jets, bail out with
`recoStatus = 1` when fewer than four jets survive, otherwise try every
interpretation and set `recoStatus = 0`.  Returns
`(recoStatus, accumulator, strategy state)`; the tuples handed to the rank
function hold indices into `jets` (the engine passes
`jets.at(selectedJetIndices.at(ii))` by reference). -/
noncomputable def performJetAssignment {σ : Type}
    (rank : σ → EReal → ℕ × ℕ × ℕ × ℕ → EReal × σ)
    (jets : List Jet) (minPt maxAbsEta : ℝ) (s0 : σ) :
    ℕ × EngineAcc × σ :=
  let sel := selectJets jets minPt maxAbsEta
  if sel.length < 4 then (1, ⟨⊥, none, 0⟩, s0)
  else
    let tl := (tupleList sel.length).map fun t =>
      (sel.getD t.1 0, sel.getD t.2.1 0, sel.getD t.2.2.1 0, sel.getD t.2.2.2 0)
    let r := tl.foldl (engineStep rank) (⟨⊥, none, 0⟩, s0)
    (0, r.1, r.2)

theorem engineStep_calls {σ : Type} (rank : σ → EReal → ℕ × ℕ × ℕ × ℕ → EReal × σ) :
    ∀ (l : List (ℕ × ℕ × ℕ × ℕ)) (p : EngineAcc × σ),
      (l.foldl (engineStep rank) p).1.calls = p.1.calls + l.length := by
  intro l
  induction l with
  | nil => intro p; simp
  | cons t rest ih =>
    intro p
    rw [List.foldl_cons, List.length_cons, ih]
    have hstep : (engineStep rank p t).1.calls = p.1.calls + 1 := by
      unfold engineStep
      dsimp only
      split <;> rfl
    rw [hstep]
    omega

/-- **C6 (evaluation).** For an event with exactly 4 selected jets the engine
invokes the rank function 36 times — once per tuple enumerated by the nested
loops of `TTSemilepRecoBase.cpp` lines 133-166, whose innermost loop does not
exclude `iiQ2` colliding with the b positions — and not the
`N(N-1)(N-2)(N-3)/2 = 12` times the specification states. -/
theorem engine_invocation_count {σ : Type}
    (rank : σ → EReal → ℕ × ℕ × ℕ × ℕ → EReal × σ)
    (jets : List Jet) (minPt maxAbsEta : ℝ) (s0 : σ)
    (h4 : (selectJets jets minPt maxAbsEta).length = 4) :
    (performJetAssignment rank jets minPt maxAbsEta s0).2.1.calls = 36 ∧
      (36 : ℕ) ≠ 4 * (4 - 1) * (4 - 2) * (4 - 3) / 2 := by
  constructor
  · unfold performJetAssignment
    dsimp only
    rw [h4, if_neg (by norm_num)]
    dsimp only
    rw [engineStep_calls]
    simp only [List.length_map, Nat.zero_add]
    decide
  · decide

/-- Witness for C6: four jets with `pt = 1`, `eta = 0` all pass the selection
`minPt = 0`, `maxAbsEta = 1`. -/
theorem engine_invocation_count_witness :
    (selectJets [⟨1, 0, ⟨0, 0, 0, 0⟩⟩, ⟨1, 0, ⟨0, 0, 0, 0⟩⟩, ⟨1, 0, ⟨0, 0, 0, 0⟩⟩,
        ⟨1, 0, ⟨0, 0, 0, 0⟩⟩] 0 1).length = 4 ∧
      ((performJetAssignment (fun s _ _ => (⊥, s))
          [⟨1, 0, ⟨0, 0, 0, 0⟩⟩, ⟨1, 0, ⟨0, 0, 0, 0⟩⟩, ⟨1, 0, ⟨0, 0, 0, 0⟩⟩,
            ⟨1, 0, ⟨0, 0, 0, 0⟩⟩] 0 1 ()).2.1.calls = 36 ∧
        (36 : ℕ) ≠ 4 * (4 - 1) * (4 - 2) * (4 - 3) / 2) := by
  have h4 : (selectJets [⟨1, 0, ⟨0, 0, 0, 0⟩⟩, ⟨1, 0, ⟨0, 0, 0, 0⟩⟩, ⟨1, 0, ⟨0, 0, 0, 0⟩⟩,
      ⟨1, 0, ⟨0, 0, 0, 0⟩⟩] 0 1).length = 4 := by
    norm_num [selectJets, selGoIdx]
  exact ⟨h4, engine_invocation_count _ _ _ _ _ h4⟩

/-! ## The chi-squared rank strategy, `TTSemilepRecoChi2`

`TTSemilepRecoChi2.cpp`.  Ranks are `EReal`: the engine's `highestRank`
starts at `-infinity` and the strategy's running `minChi2` starts at
`+infinity`, exactly as the C++ doubles do. -/

/-- The supported chi^2 term kinds (`TTSemilepRecoChi2.hpp`, enum
`Expression`). -/
inductive Expression
  | massTopLep
  | massTopHad
  | massWHad
  | ptTT

/-- The expression functions of `TTSemilepRecoChi2.cpp` lines 16-41, selected
by `AddChi2Term` (lines 73-96). -/
noncomputable def exprEval : Expression → P4 → P4 → P4 → P4 → P4 → P4 → ℝ
  | .massTopLep, l, nu, bTopLep, _, _, _ => (l + nu + bTopLep).mass
  | .massTopHad, _, _, _, bTopHad, q1, q2 => (bTopHad + q1 + q2).mass
  | .massWHad, _, _, _, _, q1, q2 => (q1 + q2).mass
  | .ptTT, l, nu, bTopLep, bTopHad, q1, q2 => (l + nu + bTopLep + bTopHad + q1 + q2).ptv

/-- A chi^2 summand (`TTSemilepRecoChi2.hpp`, struct `Chi2Term`). -/
structure Chi2Term where
  expression : Expression
  mean : ℝ
  variance : ℝ

/-- `Chi2Term::Eval`, `TTSemilepRecoChi2.cpp` lines 45-50:
`((x - mean) / variance)^2`. -/
noncomputable def Chi2Term.eval (t : Chi2Term) (l nu bTopLep bTopHad q1 q2 : P4) : ℝ :=
  ((exprEval t.expression l nu bTopLep bTopHad q1 q2 - t.mean) / t.variance) ^ 2

/-- The chi^2 of one interpretation for one neutrino candidate: the sum of
all configured terms (`TTSemilepRecoChi2.cpp` lines 149-153). -/
noncomputable def tupleChi2 (terms : List Chi2Term) (l nu bTopLep bTopHad q1 q2 : P4) : ℝ :=
  (terms.map fun t => t.eval l nu bTopLep bTopHad q1 q2).sum

/-- The chi^2 of the interpretation `t` (indices into `jets`) for the
neutrino candidate `nu`. -/
noncomputable def interpChi2 (terms : List Chi2Term) (lep : P4) (jets : List Jet)
    (t : ℕ × ℕ × ℕ × ℕ) (nu : P4) : ℝ :=
  tupleChi2 terms lep nu (jets.getD t.1 default).p4 (jets.getD t.2.1 default).p4
    (jets.getD t.2.2.1 default).p4 (jets.getD t.2.2.2 default).p4

/-- The body of the loop over neutrino solutions in
`TTSemilepRecoChi2::ComputeRank` (`TTSemilepRecoChi2.cpp` lines 146-167):
the first component tracks `minChi2CurInterp`, the second the pair
`(minChi2, bestNu)`. -/
noncomputable def chi2Fold (terms : List Chi2Term) (lep : P4) (jets : List Jet)
    (t : ℕ × ℕ × ℕ × ℕ) : (EReal × (EReal × Option P4)) → P4 → EReal × (EReal × Option P4) :=
  fun p nu =>
    ((if (interpChi2 terms lep jets t nu : EReal) < p.1
        then (interpChi2 terms lep jets t nu : EReal) else p.1),
      (if (interpChi2 terms lep jets t nu : EReal) < p.2.1
        then ((interpChi2 terms lep jets t nu : EReal), some nu) else p.2))

/-- `TTSemilepRecoChi2::ComputeRank`, `TTSemilepRecoChi2.cpp` lines 139-173:
loop over the neutrino candidates accumulating `minChi2CurInterp` (started at
`+infinity`) and the event-global `(minChi2, bestNu)` state; the rank is the
negated minimum.  The current best engine rank is unused by this strategy. -/
noncomputable def computeRankChi2 (terms : List Chi2Term) (lep : P4) (nus : List P4)
    (jets : List Jet) (s : EReal × Option P4) (curBest : EReal) (t : ℕ × ℕ × ℕ × ℕ) :
    EReal × (EReal × Option P4) :=
  ((-(nus.foldl (chi2Fold terms lep jets t) (⊤, s)).1),
    (nus.foldl (chi2Fold terms lep jets t) (⊤, s)).2)

/-- Running minimum of `f` over a list, as iterated by a `chi2 < min` update. -/
noncomputable def minStep {β : Type} (f : β → ℝ) : EReal → β → EReal :=
  fun m x => if (f x : EReal) < m then (f x : EReal) else m

/-- Running argmin of `f` over a list, storing `st x` at each improvement. -/
noncomputable def argminStep {β γ : Type} (f : β → ℝ) (st : β → γ) :
    (EReal × Option γ) → β → EReal × Option γ :=
  fun s x => if (f x : EReal) < s.1 then ((f x : EReal), some (st x)) else s

theorem minStep_le_init {β : Type} (f : β → ℝ) :
    ∀ (l : List β) (m : EReal), l.foldl (minStep f) m ≤ m := by
  intro l
  induction l with
  | nil => intro m; simp
  | cons x rest ih =>
    intro m
    rw [List.foldl_cons]
    refine le_trans (ih _) ?_
    unfold minStep
    split
    · exact le_of_lt (by assumption)
    · exact le_refl m

theorem minStep_le {β : Type} (f : β → ℝ) :
    ∀ (l : List β) (m : EReal), ∀ x ∈ l, l.foldl (minStep f) m ≤ (f x : EReal) := by
  intro l
  induction l with
  | nil => intro m x hx; cases hx
  | cons y rest ih =>
    intro m x hx
    rw [List.foldl_cons]
    rcases List.mem_cons.mp hx with h | h
    · subst h
      refine le_trans (minStep_le_init f rest _) ?_
      unfold minStep
      split
      · exact le_refl _
      · exact le_of_not_lt (by assumption)
    · exact ih _ x h

theorem minStep_attain {β : Type} (f : β → ℝ) :
    ∀ (l : List β) (m : EReal),
      l.foldl (minStep f) m = m ∨ ∃ x ∈ l, l.foldl (minStep f) m = (f x : EReal) := by
  intro l
  induction l with
  | nil => intro m; left; rfl
  | cons y rest ih =>
    intro m
    rw [List.foldl_cons]
    rcases ih (minStep f m y) with h | ⟨x, hx, h⟩
    · by_cases hy : (f y : EReal) < m
      · right
        refine ⟨y, List.mem_cons_self y rest, ?_⟩
        rw [h]
        unfold minStep
        rw [if_pos hy]
      · left
        rw [h]
        unfold minStep
        rw [if_neg hy]
    · right
      exact ⟨x, List.mem_cons_of_mem y hx, h⟩

theorem argminStep_fst {β γ : Type} (f : β → ℝ) (st : β → γ) :
    ∀ (l : List β) (s : EReal × Option γ),
      (l.foldl (argminStep f st) s).1 = l.foldl (minStep f) s.1 := by
  intro l
  induction l with
  | nil => intro s; rfl
  | cons y rest ih =>
    intro s
    rw [List.foldl_cons, List.foldl_cons, ih]
    congr 1
    unfold argminStep minStep
    split <;> rfl

theorem argminStep_attain {β γ : Type} (f : β → ℝ) (st : β → γ) :
    ∀ (l : List β) (s : EReal × Option γ),
      l.foldl (argminStep f st) s = s ∨
        ∃ x ∈ l, l.foldl (argminStep f st) s = ((f x : EReal), some (st x)) := by
  intro l
  induction l with
  | nil => intro s; left; rfl
  | cons y rest ih =>
    intro s
    rw [List.foldl_cons]
    rcases ih (argminStep f st s y) with h | ⟨x, hx, h⟩
    · by_cases hy : (f y : EReal) < s.1
      · right
        refine ⟨y, List.mem_cons_self y rest, ?_⟩
        rw [h]
        unfold argminStep
        rw [if_pos hy]
      · left
        rw [h]
        unfold argminStep
        rw [if_neg hy]
    · right
      exact ⟨x, List.mem_cons_of_mem y hx, h⟩

theorem chi2Fold_fst (terms : List Chi2Term) (lep : P4) (jets : List Jet)
    (t : ℕ × ℕ × ℕ × ℕ) :
    ∀ (l : List P4) (p : EReal × (EReal × Option P4)),
      (l.foldl (chi2Fold terms lep jets t) p).1 =
        l.foldl (minStep (interpChi2 terms lep jets t)) p.1 := by
  intro l
  induction l with
  | nil => intro p; rfl
  | cons y rest ih =>
    intro p
    rw [List.foldl_cons, List.foldl_cons, ih]
    rfl

theorem chi2Fold_snd (terms : List Chi2Term) (lep : P4) (jets : List Jet)
    (t : ℕ × ℕ × ℕ × ℕ) :
    ∀ (l : List P4) (p : EReal × (EReal × Option P4)),
      (l.foldl (chi2Fold terms lep jets t) p).2 =
        l.foldl (argminStep (interpChi2 terms lep jets t) id) p.2 := by
  intro l
  induction l with
  | nil => intro p; rfl
  | cons y rest ih =>
    intro p
    rw [List.foldl_cons, List.foldl_cons, ih]
    rfl

/-- A sequence of `ComputeRank` invocations of the chi-squared strategy
within one event, tracking the `(minChi2, bestNu)` state that
`TTSemilepRecoChi2::ProcessEvent` resets to `(+infinity, null)`
(`TTSemilepRecoChi2.cpp` lines 178-180); the state evolution does not depend
on the engine's current best rank. -/
noncomputable def chi2RunTuples (terms : List Chi2Term) (lep : P4) (nus : List P4)
    (jets : List Jet) (ts : List (ℕ × ℕ × ℕ × ℕ)) (s0 : EReal × Option P4) :
    EReal × Option P4 :=
  ts.foldl (fun s t => (computeRankChi2 terms lep nus jets s ⊥ t).2) s0

theorem chi2RunTuples_eq_pairs (terms : List Chi2Term) (lep : P4) (nus : List P4)
    (jets : List Jet) :
    ∀ (ts : List (ℕ × ℕ × ℕ × ℕ)) (s0 : EReal × Option P4),
      chi2RunTuples terms lep nus jets ts s0 =
        (ts.flatMap fun t => nus.map fun nu => (t, nu)).foldl
          (argminStep (fun p => interpChi2 terms lep jets p.1 p.2) Prod.snd) s0 := by
  intro ts
  induction ts with
  | nil => intro s0; rfl
  | cons t rest ih =>
    intro s0
    unfold chi2RunTuples at *
    rw [List.foldl_cons, List.flatMap_cons, List.foldl_append, ih, List.foldl_map]
    congr 1
    show (computeRankChi2 terms lep nus jets s0 ⊥ t).2 = _
    unfold computeRankChi2
    rw [chi2Fold_snd]
    rfl

/-- **C8.** For every invocation of the chi-squared strategy's rank function
the returned rank is the negative of the minimum, over the event's neutrino
candidates, of the sum over the configured terms of
`((observable - mean) / variance)^2`; and after any sequence of invocations
within one event (the cross-tuple state being reset once per event), the
stored best neutrino is a candidate that achieved the lowest total
chi-squared seen anywhere in the event (`TTSemilepRecoChi2.cpp`
lines 139-173). -/
theorem chi2_rank_and_global_best (terms : List Chi2Term) (lep : P4) (nus : List P4)
    (jets : List Jet) (hnus : nus ≠ []) :
    (∀ (s : EReal × Option P4) (curBest : EReal) (t : ℕ × ℕ × ℕ × ℕ),
      (∃ nu ∈ nus, (computeRankChi2 terms lep nus jets s curBest t).1 =
        -(interpChi2 terms lep jets t nu : EReal)) ∧
      (∀ nu ∈ nus, -(interpChi2 terms lep jets t nu : EReal) ≤
        (computeRankChi2 terms lep nus jets s curBest t).1)) ∧
    (∀ ts : List (ℕ × ℕ × ℕ × ℕ),
      (∀ t ∈ ts, ∀ nu ∈ nus,
        (chi2RunTuples terms lep nus jets ts (⊤, none)).1 ≤
          (interpChi2 terms lep jets t nu : EReal)) ∧
      (ts ≠ [] → ∃ nu ∈ nus, ∃ t ∈ ts,
        (chi2RunTuples terms lep nus jets ts (⊤, none)).2 = some nu ∧
        (chi2RunTuples terms lep nus jets ts (⊤, none)).1 =
          (interpChi2 terms lep jets t nu : EReal))) := by
  constructor
  · intro s curBest t
    have hfst : (computeRankChi2 terms lep nus jets s curBest t).1 =
        -(nus.foldl (minStep (interpChi2 terms lep jets t)) ⊤) := by
      unfold computeRankChi2
      rw [chi2Fold_fst]
    constructor
    · rcases minStep_attain (interpChi2 terms lep jets t) nus ⊤ with h | ⟨x, hx, h⟩
      · obtain ⟨x0, hx0⟩ := List.exists_mem_of_ne_nil nus hnus
        have := minStep_le (interpChi2 terms lep jets t) nus ⊤ x0 hx0
        rw [h] at this
        exact absurd this (not_le.mpr (EReal.coe_lt_top _))
      · exact ⟨x, hx, by rw [hfst, h]⟩
    · intro nu hnu
      rw [hfst]
      exact EReal.neg_le_neg_iff.mpr (minStep_le (interpChi2 terms lep jets t) nus ⊤ nu hnu)
  · intro ts
    rw [chi2RunTuples_eq_pairs]
    constructor
    · intro t ht nu hnu
      rw [argminStep_fst]
      refine minStep_le _ _ _ (t, nu) ?_
      rw [List.mem_flatMap]
      exact ⟨t, ht, List.mem_map.mpr ⟨nu, hnu, rfl⟩⟩
    · intro hts
      rcases argminStep_attain (fun p => interpChi2 terms lep jets p.1 p.2) Prod.snd
          (ts.flatMap fun t => nus.map fun nu => (t, nu)) (⊤, none) with h | ⟨x, hx, h⟩
      · obtain ⟨t0, ht0⟩ := List.exists_mem_of_ne_nil ts hts
        obtain ⟨nu0, hnu0⟩ := List.exists_mem_of_ne_nil nus hnus
        have hmem : (t0, nu0) ∈ (ts.flatMap fun t => nus.map fun nu => (t, nu)) := by
          rw [List.mem_flatMap]
          exact ⟨t0, ht0, List.mem_map.mpr ⟨nu0, hnu0, rfl⟩⟩
        have hle := minStep_le (fun p => interpChi2 terms lep jets p.1 p.2)
          (ts.flatMap fun t => nus.map fun nu => (t, nu)) ⊤ (t0, nu0) hmem
        rw [← argminStep_fst _ Prod.snd _ (⊤, none), h] at hle
        exact absurd hle (not_le.mpr (EReal.coe_lt_top _))
      · rcases List.mem_flatMap.mp hx with ⟨t, ht, hx2⟩
        rcases List.mem_map.mp hx2 with ⟨nu, hnu, hx3⟩
        subst hx3
        exact ⟨nu, hnu, t, ht, by rw [h], by rw [h]⟩

/-- Witness for C8 at a concrete configuration: one neutrino candidate, so
the candidate list is nonempty. -/
theorem chi2_rank_and_global_best_witness :
    ([⟨0, 0, 0, 0⟩] : List P4) ≠ [] ∧
      ((∀ (s : EReal × Option P4) (curBest : EReal) (t : ℕ × ℕ × ℕ × ℕ),
        (∃ nu ∈ ([⟨0, 0, 0, 0⟩] : List P4),
          (computeRankChi2 [] ⟨0, 0, 0, 1⟩ [⟨0, 0, 0, 0⟩] [] s curBest t).1 =
            -(interpChi2 [] ⟨0, 0, 0, 1⟩ [] t nu : EReal)) ∧
        (∀ nu ∈ ([⟨0, 0, 0, 0⟩] : List P4),
          -(interpChi2 [] ⟨0, 0, 0, 1⟩ [] t nu : EReal) ≤
            (computeRankChi2 [] ⟨0, 0, 0, 1⟩ [⟨0, 0, 0, 0⟩] [] s curBest t).1)) ∧
      (∀ ts : List (ℕ × ℕ × ℕ × ℕ),
        (∀ t ∈ ts, ∀ nu ∈ ([⟨0, 0, 0, 0⟩] : List P4),
          (chi2RunTuples [] ⟨0, 0, 0, 1⟩ [⟨0, 0, 0, 0⟩] [] ts (⊤, none)).1 ≤
            (interpChi2 [] ⟨0, 0, 0, 1⟩ [] t nu : EReal)) ∧
        (ts ≠ [] → ∃ nu ∈ ([⟨0, 0, 0, 0⟩] : List P4), ∃ t ∈ ts,
          (chi2RunTuples [] ⟨0, 0, 0, 1⟩ [⟨0, 0, 0, 0⟩] [] ts (⊤, none)).2 = some nu ∧
          (chi2RunTuples [] ⟨0, 0, 0, 1⟩ [⟨0, 0, 0, 0⟩] [] ts (⊤, none)).1 =
            (interpChi2 [] ⟨0, 0, 0, 1⟩ [] t nu : EReal)))) :=
  ⟨List.cons_ne_nil _ _,
    chi2_rank_and_global_best [] ⟨0, 0, 0, 1⟩ [⟨0, 0, 0, 0⟩] [] (List.cons_ne_nil _ _)⟩

/-! ## The likelihood rank strategy, `TTSemilepRecoRochester`

`TTSemilepRecoRochester.cpp`.  The Ellipse Solver (`NuRecoRochester`, whose
implementation lives outside the reconstruction sources, only its interface
is declared in `NuRecoRochester.hpp`) and the two ROOT likelihood histograms
are external collaborators; they enter as opaque function parameters through
exactly the call surface the strategy uses. -/

/-- External collaborators of `TTSemilepRecoRochester::ComputeRank`: the
ellipse solver (`IsReconstructable`, `GetBest` with unit MET errors as called
on line 159, returning the neutrino four-momentum and the squared distance)
and the two likelihood histograms (`FindFixBin`, `IsBinOverflow`,
`GetBinContent`). -/
structure RochParams where
  isRec : P4 → P4 → Bool
  getBest : P4 → P4 → ℝ → ℝ → P4 × ℝ
  hist1Find : ℝ → ℤ
  hist1Over : ℤ → Bool
  hist1Val : ℤ → ℝ
  hist2Find : ℝ → ℝ → ℤ
  hist2Over : ℤ → Bool
  hist2Val : ℤ → ℝ

/-- The strategy's mutable per-event state (`TTSemilepRecoRochester.hpp`
lines 146-164), plus an instrumentation counter of how many times the
`NuRecoRochester` solver is constructed (`TTSemilepRecoRochester.cpp`
line 153). -/
structure RochState where
  cachedBTopLep : Option ℕ
  cachedP4Nu : P4
  cachedLogLikNu : ℝ
  neutrinoReconstructed : Bool
  neutrinoLikelihoodInRange : Bool
  massLikelihoodInRange : Bool
  neutrino : P4
  solverCalls : ℕ

/-- The tail of `TTSemilepRecoRochester::ComputeRank` shared by the cache-hit
and cache-miss paths (`TTSemilepRecoRochester.cpp` lines 184-207): compute
the hadronic W and top masses, look them up in the 2-D likelihood, reject on
overflow, and copy the neutrino into the event-level holder when the total
log-likelihood beats the engine's current best rank. -/
noncomputable def rochTail (pr : RochParams) (jets : List Jet) (curBest : EReal)
    (bTopHad q1 q2 : ℕ) (logLikNu : ℝ) (p4Nu : P4) (s : RochState) : EReal × RochState :=
  let p4W := (jets.getD q1 default).p4 + (jets.getD q2 default).p4
  let mWhad := p4W.mass
  let mTop := (p4W + (jets.getD bTopHad default).p4).mass
  if pr.hist2Over (pr.hist2Find mWhad mTop) then (⊥, s)
  else
    let s2 := { s with massLikelihoodInRange := true }
    let ll := logLikNu + Real.log (pr.hist2Val (pr.hist2Find mWhad mTop))
    if (ll : EReal) > curBest then ((ll : EReal), { s2 with neutrino := p4Nu })
    else ((ll : EReal), s2)

/-- `TTSemilepRecoRochester::ComputeRank` (`TTSemilepRecoRochester.cpp`
lines 136-208).  The leptonic-b jet is identified by its index into the
event's jet collection (reference identity).  On the cache-miss path the
source updates `cachedP4Nu` and `cachedLogLikelihoodNu` (lines 175-176) but
never assigns `cachedBTopLep`, which is faithfully reproduced here. -/
noncomputable def computeRankRoch (pr : RochParams) (lep : P4) (metx mety : ℝ)
    (jets : List Jet) (s : RochState) (curBest : EReal) (t : ℕ × ℕ × ℕ × ℕ) :
    EReal × RochState :=
  if s.cachedBTopLep = some t.1 then
    rochTail pr jets curBest t.2.1 t.2.2.1 t.2.2.2 s.cachedLogLikNu s.cachedP4Nu s
  else
    let s1 := { s with solverCalls := s.solverCalls + 1 }
    if pr.isRec lep (jets.getD t.1 default).p4 then
      let nuRes := pr.getBest lep (jets.getD t.1 default).p4 metx mety
      let nuDist := Real.sqrt nuRes.2
      let s2 := { s1 with neutrinoReconstructed := true }
      if pr.hist1Over (pr.hist1Find nuDist) then (⊥, s2)
      else
        let s3 := { s2 with neutrinoLikelihoodInRange := true }
        let lik := Real.log (pr.hist1Val (pr.hist1Find nuDist))
        let s4 := { s3 with cachedP4Nu := nuRes.1, cachedLogLikNu := lik }
        rochTail pr jets curBest t.2.1 t.2.2.1 t.2.2.2 lik nuRes.1 s4
    else (⊥, s1)

/-- Cross-event state of the Rochester plugin: the reconstruction status, the
engine's accumulator (rank, best jets) and the strategy state inherited from
`TTSemilepRecoBase` / `TTSemilepRecoRochester`, and the selected lepton. -/
structure RochPlugin where
  recoStatus : ℕ
  acc : EngineAcc
  st : RochState
  lepton : Option P4

/-- A freshly constructed plugin: the `Candidate neutrino` member
default-constructs to the zero four-vector; the remaining members are not
initialized before the first event and are fixed to zeros here. -/
noncomputable def rochPluginInit : RochPlugin :=
  ⟨0, ⟨⊥, none, 0⟩, ⟨none, ⟨0, 0, 0, 0⟩, 0, false, false, false, ⟨0, 0, 0, 0⟩, 0⟩, none⟩

/-- `TTSemilepRecoRochester::ProcessEvent` (`TTSemilepRecoRochester.cpp`
lines 211-256): bail out with failure code 1 when the event has no leptons
(leaving the engine state untouched); otherwise reset the per-event state,
clear the cache (`cachedBTopLep = nullptr` only, line 232), run the jet
assignment, and — whenever the best rank is still `-infinity` — overwrite the
status with the first matching failure code 2/3/4/5 (lines 241-251). -/
noncomputable def rochProcessEvent (pr : RochParams) (leptons : List P4) (metx mety : ℝ)
    (jets : List Jet) (minPt maxAbsEta : ℝ) (prev : RochPlugin) : RochPlugin :=
  match leptons with
  | [] => { prev with recoStatus := 1, lepton := none }
  | lep :: _ =>
    let st1 : RochState := { prev.st with
      neutrino := ⟨0, 0, 0, 0⟩,
      neutrinoReconstructed := false,
      neutrinoLikelihoodInRange := false,
      massLikelihoodInRange := false,
      cachedBTopLep := none,
      solverCalls := 0 }
    let r := performJetAssignment (computeRankRoch pr lep metx mety jets)
      jets minPt maxAbsEta st1
    let status :=
      if r.2.1.highestRank = ⊥ then
        if r.2.2.neutrinoReconstructed = false then 2
        else if r.2.2.neutrinoLikelihoodInRange = false then 3
        else if r.2.2.massLikelihoodInRange = false then 4
        else 5
      else r.1
    ⟨status, r.2.1, r.2.2, some lep⟩

/-- The four decay roles, `TTSemilepRecoBase::DecayJet`. -/
inductive DecayJet
  | bTopLep
  | bTopHad
  | q1TopHad
  | q2TopHad

/-- `TTSemilepRecoBase::GetJet` (`TTSemilepRecoBase.cpp` lines 31-64): when
the requested jet pointer is null — reconstruction aborted — it throws. -/
def getJet (acc : EngineAcc) (d : DecayJet) : Except Unit ℕ :=
  match acc.best with
  | none => Except.error ()
  | some t =>
    Except.ok (match d with
      | .bTopLep => t.1
      | .bTopHad => t.2.1
      | .q1TopHad => t.2.2.1
      | .q2TopHad => t.2.2.2)

/-- `TTSemilepRecoRochester::GetLepton` (`TTSemilepRecoRochester.cpp`
lines 57-68): throws when the current event has no leptons. -/
def rochGetLepton (p : RochPlugin) : Except Unit P4 :=
  match p.lepton with
  | none => Except.error ()
  | some l => Except.ok l

/-- `TTSemilepRecoRochester::GetNeutrino` (`TTSemilepRecoRochester.cpp`
lines 71-74): returns the stored neutrino unconditionally — no status check,
no exception. -/
def rochGetNeutrino (p : RochPlugin) : Except Unit P4 :=
  Except.ok p.st.neutrino

/-! ## Claim C1: the neutrino-reconstruction cache -/

/-- Trivial external collaborators for evaluation: the solver always succeeds
with a fixed candidate and unit squared distance, and both likelihood tables
are the constant density 1 with no overflow. -/
noncomputable def trivialParams : RochParams :=
  ⟨fun _ _ => true, fun _ _ _ _ => (⟨1, 2, 3, 4⟩, 1),
    fun _ => 0, fun _ => false, fun _ => 1,
    fun _ _ => 0, fun _ => false, fun _ => 1⟩

/-- The strategy state right after the per-event reset of
`TTSemilepRecoRochester::ProcessEvent`. -/
noncomputable def rochStateReset : RochState :=
  ⟨none, ⟨0, 0, 0, 0⟩, 0, false, false, false, ⟨0, 0, 0, 0⟩, 0⟩

/-- **C1 (evaluation).** Two consecutive rank invocations with the leptonic-b
jet identical by reference (index 0 both times, the engine's outer-loop
order): the second invocation constructs the Ellipse Solver again
(`solverCalls = 2` instead of 1), because the cache key `cachedBTopLep` is
still null after the first invocation — the miss path of
`TTSemilepRecoRochester.cpp` lines 150-181 updates `cachedP4Nu` and
`cachedLogLikelihoodNu` but never assigns `cachedBTopLep`, so the cached
values are never reused. -/
theorem rochester_cache_never_reused :
    ((computeRankRoch trivialParams ⟨0, 0, 0, 1⟩ 0 0 []
        ((computeRankRoch trivialParams ⟨0, 0, 0, 1⟩ 0 0 [] rochStateReset ⊥ (0, 1, 2, 3)).2)
        ⊥ (0, 1, 2, 3)).2).solverCalls = 2 ∧
      ((computeRankRoch trivialParams ⟨0, 0, 0, 1⟩ 0 0 [] rochStateReset ⊥
          (0, 1, 2, 3)).2).cachedBTopLep = none := by
  simp [computeRankRoch, rochTail, trivialParams, rochStateReset, Real.log_one]

/-! ## Claims C2 and C3: insufficient jets, and accessor validity -/

/-- **C2 (evaluation).** An event with a lepton but only three selected jets
under the likelihood strategy: the engine sets `recoStatus = 1`
(InsufficientJets) and performs zero rank invocations, but
`TTSemilepRecoRochester::ProcessEvent` then finds `GetRank() = -infinity`
with `neutrinoReconstructed` still false and overwrites the status with
failure code 2 (NoValidNeutrinoReconstruction) on
`TTSemilepRecoRochester.cpp` lines 241-251 — the event does not finish with
the InsufficientJets status. -/
theorem roch_insufficient_jets_status_overwritten :
    (rochProcessEvent trivialParams [⟨0, 0, 0, 1⟩] 0 0
        [⟨1, 0, ⟨0, 0, 0, 0⟩⟩, ⟨1, 0, ⟨0, 0, 0, 0⟩⟩, ⟨1, 0, ⟨0, 0, 0, 0⟩⟩] 0 1
        rochPluginInit).recoStatus = 2 ∧
      (rochProcessEvent trivialParams [⟨0, 0, 0, 1⟩] 0 0
        [⟨1, 0, ⟨0, 0, 0, 0⟩⟩, ⟨1, 0, ⟨0, 0, 0, 0⟩⟩, ⟨1, 0, ⟨0, 0, 0, 0⟩⟩] 0 1
        rochPluginInit).recoStatus ≠ 1 ∧
      (rochProcessEvent trivialParams [⟨0, 0, 0, 1⟩] 0 0
        [⟨1, 0, ⟨0, 0, 0, 0⟩⟩, ⟨1, 0, ⟨0, 0, 0, 0⟩⟩, ⟨1, 0, ⟨0, 0, 0, 0⟩⟩] 0 1
        rochPluginInit).acc.calls = 0 := by
  norm_num [rochProcessEvent, performJetAssignment, selectJets, selGoIdx, rochPluginInit]

/-- **C3 (evaluation).** After an event whose reconstruction failed
(`recoStatus = 1`, no leptons), `TTSemilepRecoRochester::GetNeutrino` does
not raise: it returns the default zero four-momentum, although a Success
status was claimed to be necessary for the neutrino accessor to be valid and
the accessor's own documentation promises an exception. -/
theorem roch_getNeutrino_without_success :
    (rochProcessEvent trivialParams [] 0 0 [] 0 1 rochPluginInit).recoStatus ≠ 0 ∧
      rochGetNeutrino (rochProcessEvent trivialParams [] 0 0 [] 0 1 rochPluginInit) =
        Except.ok ⟨0, 0, 0, 0⟩ := by
  constructor
  · norm_num [rochProcessEvent, rochPluginInit]
  · simp [rochProcessEvent, rochGetNeutrino, rochPluginInit]

/-! ## Claim C9: the reconstruction status codes -/

/-- Cross-event state of the chi-squared plugin: reconstruction status, the
engine accumulator, and the `(minChi2, bestNu)` pair. -/
structure Chi2Plugin where
  recoStatus : ℕ
  acc : EngineAcc
  minChi2 : EReal
  bestNu : Option P4

/-- A freshly constructed chi-squared plugin (members before the first
event). -/
noncomputable def chi2PluginInit : Chi2Plugin := ⟨0, ⟨⊥, none, 0⟩, ⊤, none⟩

/-- `TTSemilepRecoChi2::ProcessEvent` (`TTSemilepRecoChi2.cpp`
lines 176-198): reset `(minChi2, bestNu)`, abort with failure code 1 when
the event has no leptons or no neutrino candidates, otherwise run the jet
assignment; the engine's status (0, or 1 for insufficient jets) is kept
unchanged. -/
noncomputable def chi2ProcessEvent (terms : List Chi2Term) (leptons nus : List P4)
    (jets : List Jet) (minPt maxAbsEta : ℝ) (prev : Chi2Plugin) : Chi2Plugin :=
  match leptons with
  | [] => { prev with minChi2 := ⊤, bestNu := none, recoStatus := 1 }
  | lep :: _ =>
    match nus with
    | [] => { prev with minChi2 := ⊤, bestNu := none, recoStatus := 1 }
    | _ :: _ =>
      let r := performJetAssignment (computeRankChi2 terms lep nus jets)
        jets minPt maxAbsEta (⊤, none)
      ⟨r.1, r.2.1, r.2.2.1, r.2.2.2⟩

/-- `recoStatus = 0`, set by `TTSemilepRecoBase.cpp` line 169 after a
completed enumeration. -/
def statusSuccess : ℕ := 0

/-- `recoStatus = 1`, set by `TTSemilepRecoBase.cpp` line 127 when fewer
than four jets pass the selection. -/
def statusInsufficientJets : ℕ := 1

/-- `SetRecoFailure(1)`, set by `TTSemilepRecoChi2.cpp` line 187 and
`TTSemilepRecoRochester.cpp` line 217 when the event has no lepton (or, for
the chi-squared strategy, no neutrino candidate). -/
def statusNoLeptonOrNeutrino : ℕ := 1

/-- `SetRecoFailure(2)`, `TTSemilepRecoRochester.cpp` line 244. -/
def statusNoValidNeutrinoReconstruction : ℕ := 2

/-- `SetRecoFailure(3)`, `TTSemilepRecoRochester.cpp` line 246. -/
def statusNeutrinoLikelihoodOutOfRange : ℕ := 3

/-- `SetRecoFailure(4)`, `TTSemilepRecoRochester.cpp` line 248. -/
def statusMassLikelihoodOutOfRange : ℕ := 4

/-- `SetRecoFailure(5)`, `TTSemilepRecoRochester.cpp` line 250. -/
def statusUnspecified : ℕ := 5

/-- **C9 (counterexample).** Two events under the chi-squared strategy — one
with a lepton and a neutrino candidate but only three selected jets
(InsufficientJets), the other with no lepton at all (NoLeptonOrNeutrino) —
finish with the same status value 1: a downstream consumer reading the
status cannot distinguish the two outcomes, so the seven enumerated outcomes
are not represented by pairwise distinct values. -/
theorem status_collision_insufficient_vs_noLepton :
    (chi2ProcessEvent [] [⟨0, 0, 0, 1⟩] [⟨0, 0, 0, 0⟩]
        [⟨1, 0, ⟨0, 0, 0, 0⟩⟩, ⟨1, 0, ⟨0, 0, 0, 0⟩⟩, ⟨1, 0, ⟨0, 0, 0, 0⟩⟩] 0 1
        chi2PluginInit).recoStatus = statusInsufficientJets ∧
      (chi2ProcessEvent [] [] [⟨0, 0, 0, 0⟩]
        [⟨1, 0, ⟨0, 0, 0, 0⟩⟩, ⟨1, 0, ⟨0, 0, 0, 0⟩⟩, ⟨1, 0, ⟨0, 0, 0, 0⟩⟩] 0 1
        chi2PluginInit).recoStatus = statusNoLeptonOrNeutrino ∧
      statusInsufficientJets = statusNoLeptonOrNeutrino := by
  refine ⟨?_, ?_, rfl⟩
  · norm_num [chi2ProcessEvent, performJetAssignment, selectJets, selGoIdx,
      statusInsufficientJets]
  · norm_num [chi2ProcessEvent, statusNoLeptonOrNeutrino]

/-- **C9 (amended).** The status codes of the seven enumerated outcomes are
the values 0-5: the five outcomes Success, NoValidNeutrinoReconstruction,
NeutrinoLikelihoodOutOfRange, MassLikelihoodOutOfRange and Unspecified are
pairwise distinct from each other and from code 1, but InsufficientJets and
NoLeptonOrNeutrino share the value 1 and cannot be told apart by a consumer
of the status. -/
theorem status_codes_amended :
    statusInsufficientJets = statusNoLeptonOrNeutrino ∧
      List.Pairwise (· ≠ ·) [statusSuccess, statusInsufficientJets,
        statusNoValidNeutrinoReconstruction, statusNeutrinoLikelihoodOutOfRange,
        statusMassLikelihoodOutOfRange, statusUnspecified] := by
  decide
